import Mathlib

/-!
Verification of the stl-scraper core.

A shallow embedding of `src/stl/scraper/airbnb_scraper.py`:
the calendar-normalization loop and delisting handling of
`AirbnbCalendarScraper`, and the pagination/deduplication loop of
`AirbnbSearchScraper`.  External collaborators (HTTP fetchers, the
persistence sink, URL building) are modelled as scripted inputs, and the
side effects on them as explicit event traces.

Calendar dates are modelled as natural numbers (day ordinals); a Python
`dict` from date to day record is modelled as an association list that is
strictly sorted on its keys (the canonical representation of a finite map,
matching the `sorted(...)` recomputation in the source).  The day record is
reduced to its status classification, the only field the embedded code
inspects; the normalizer carries whole entries through unchanged, so
nothing is lost by this reduction.
-/

namespace Stl

/-- Status classification of one calendar day, as used by the range
extractor: a day is either available or booked. -/
inductive Status where
  | available : Status
  | booked : Status
deriving DecidableEq, Repr

/-- A calendar: finite map from date to day status, represented as an
association list strictly sorted by date. -/
abbrev Calendar := List (Nat × Status)

/-- The representation invariant of a Python dict keyed by dates, kept
chronologically: keys strictly increasing (hence unique). -/
def SortedCal (cal : Calendar) : Prop := (cal.map Prod.fst).Pairwise (· < ·)

instance : DecidablePred SortedCal := fun cal =>
  inferInstanceAs (Decidable ((cal.map Prod.fst).Pairwise (· < ·)))

/-- A date range as produced by `Calendar.get_date_ranges`: a maximal run
of consecutive dates sharing one status, recorded as its status, start
date and length in days. -/
structure DateRange where
  status : Status
  start : Nat
  length : Nat
deriving DecidableEq, Repr

/-- Decompose a strictly increasing list of dates into its maximal runs of
consecutive integers, each as a (start, length) pair, in order. -/
def runs : List Nat → List (Nat × Nat)
  | [] => []
  | d :: ds =>
    match runs ds with
    | [] => [(d, 1)]
    | (s, l) :: rest => if s = d + 1 then (d, l + 1) :: rest else (d, 1) :: (s, l) :: rest

/-- The dates of a calendar carrying a given status, in calendar order. -/
def datesWithStatus (status : Status) (cal : Calendar) : List Nat :=
  (cal.filter (fun p => p.2 = status)).map Prod.fst

/-- Modelled from the spec: `Calendar.get_date_ranges` of
`stl/endpoint/calendar.py`, which is not under `src/`.  Spec 4.1: given a
calendar and a target status, produce the ordered sequence of maximal runs
of consecutive dates whose status equals the target, sorted by start date
ascending, each with its length in days; a one-day gap breaks a run. -/
def get_date_ranges (status : Status) (cal : Calendar) : List DateRange :=
  (runs (datesWithStatus status cal)).map (fun r => ⟨status, r.1, r.2⟩)

/-- Membership of a date in a date range. -/
def DateRange.containsDate (r : DateRange) (d : Nat) : Bool :=
  decide (r.start ≤ d) && decide (d < r.start + r.length)

/-- One removal step of the normalization loop: the source recomputes the
calendar as its date set minus the booking dates
`start + i` for `i < length`, re-sorted; on a sorted association list this
is filtering out the keys inside the range. -/
def removeRange (cal : Calendar) (r : DateRange) : Calendar :=
  cal.filter (fun p => !(r.containsDate p.1))

/-- The loop over the booked date ranges, `for date_range in ...`, of `AirbnbCalendarScraper.__update_calendar_and_pricing`
(airbnb_scraper.py lines 113-120): ranges longer than 62 days are removed
from the calendar; otherwise ranges longer than 50 days are flagged with a
warning.  Returns the resulting calendar and the flagged ranges in
iteration order.  `normStep` is the body of one iteration, acting on the
current (calendar, flagged ranges) state. -/
def normStep (st : Calendar × List DateRange) (r : DateRange) : Calendar × List DateRange :=
  if r.length > 62 then (removeRange st.1 r, st.2)
  else if r.length > 50 then (st.1, st.2 ++ [r])
  else st

/-- The loop itself: fold the step over the booked ranges of the incoming
calendar, starting from that calendar and no warnings. -/
def updateCalendarLoop (cal : Calendar) : Calendar × List DateRange :=
  (get_date_ranges .booked cal).foldl normStep (cal, [])

/-- The cleaned calendar produced by the normalization loop. -/
def normalizeCal (cal : Calendar) : Calendar := (updateCalendarLoop cal).1

/-- The ranges flagged with a warning by the normalization loop. -/
def warnsOf (cal : Calendar) : List DateRange := (updateCalendarLoop cal).2

/-- Whether a date lies inside some booked range of the calendar that is
longer than 62 days (a "fabricated" range the loop removes). -/
def inLongRange (cal : Calendar) (d : Nat) : Bool :=
  (get_date_ranges .booked cal).any (fun r => decide (r.length > 62) && r.containsDate d)

/-! ## Calendar refresh orchestrator (`AirbnbCalendarScraper`)

The collaborators of `AirbnbCalendarScraper` — the `Calendar` endpoint's
`get_calendar` and `get_rate_data`, the existence-probe HTTP request, and
the persistence index — are scripted in a `CalEnv`.  Calls into the
persistence sink and warning-level log lines are recorded as `CalEvent`s
in program order.  A raised exception is an `Except.error` carrying its
message; a `ForbiddenException` from the calendar fetch is the `.error`
case of `get_calendar`'s result. -/

/-- An opaque pricing document; `if not pricing_doc` in the source is the
`Option.none` case of the rate-data fetch result. -/
abbrev RateDoc := String

/-- Observable effects of a per-listing refresh: persistence calls and the
warning-level log lines the spec's claims mention. -/
inductive CalEvent where
  | warnLongBooking : String → DateRange → CalEvent
  | update_calendar : String → Calendar → CalEvent
  | warnNoPricing : String → CalEvent
  | update_pricing : String → RateDoc → Nat → Nat → CalEvent
  | mark_deleted : String → CalEvent
deriving DecidableEq, Repr

/-- Scripted collaborators of the calendar scraper. -/
structure CalEnv where
  /-- `Calendar.get_calendar`: calendar plus min/max nights, or a
  `ForbiddenException` (the `.error` case). -/
  get_calendar : String → Except Unit (Calendar × Nat × Nat)
  /-- `Calendar.get_rate_data (id, ranges, min, max, flag)`; `none` models
  an empty/falsy pricing document. -/
  get_rate_data : String → List DateRange → Nat → Nat → Bool → Option RateDoc
  /-- HTTP status code returned by the detail-page probe `GET /rooms/id`. -/
  probe_status : String → Nat
  /-- `persistence.get_all_index_ids()` (bulk mode). -/
  index_ids : List String

/-- Embeds `AirbnbCalendarScraper.__exists_listing`: probe the listing's detail
page; 200 means it exists, 410 means gone, anything else raises. -/
def exists_listing (status : Nat) : Except String Bool :=
  if status = 200 then .ok true
  else if status = 410 then .ok false
  else .error "Unhandled response code"

/-- Embeds `AirbnbCalendarScraper.__update_calendar_and_pricing`: fetch the
calendar, run the normalization loop, persist the cleaned calendar, fetch
rate data for the available ranges, and persist pricing if any; on a
`ForbiddenException` from the calendar fetch, resolve via the existence
probe into a fatal error (exists), a soft delete (gone), or an unhandled
fatal error (any other status). -/
def update_calendar_and_pricing (env : CalEnv) (listing_id : String) :
    Except String (List CalEvent) :=
  match env.get_calendar listing_id with
  | .ok (calendar, min_nights, max_nights) =>
    let st := updateCalendarLoop calendar
    let evs := st.2.map (CalEvent.warnLongBooking listing_id) ++
      [CalEvent.update_calendar listing_id st.1]
    let ranges := get_date_ranges .available st.1
    match env.get_rate_data listing_id ranges min_nights max_nights false with
    | none => .ok (evs ++ [CalEvent.warnNoPricing listing_id])
    | some pricing_doc =>
      .ok (evs ++ [CalEvent.update_pricing listing_id pricing_doc min_nights max_nights])
  | .error _ =>
    match exists_listing (env.probe_status listing_id) with
    | .error e => .error e
    | .ok true => .error ("Could not get listing calendar for existing listing " ++ listing_id)
    | .ok false => .ok [CalEvent.mark_deleted listing_id]

/-- The bulk-mode loop over all index ids; an unhandled exception from one
listing aborts the whole run. -/
def runBulk (env : CalEnv) : List String → Except String (List CalEvent)
  | [] => .ok []
  | listing_id :: rest =>
    match update_calendar_and_pricing env listing_id with
    | .error e => .error e
    | .ok evs =>
      match runBulk env rest with
      | .error e => .error e
      | .ok evs' => .ok (evs ++ evs')

/-- Embeds `AirbnbCalendarScraper.run`: bulk mode when the token is
`elasticsearch` (persistence events, no returned value); otherwise single
mode, returning the fetched calendar and the rate data for its available
ranges, with no persistence events.  A `ForbiddenException` in single mode
propagates uncaught. -/
def calRun (env : CalEnv) (source : String) :
    Except String (List CalEvent × Option (Calendar × Option RateDoc)) :=
  if source = "elasticsearch" then
    match runBulk env env.index_ids with
    | .error e => .error e
    | .ok evs => .ok (evs, none)
  else
    match env.get_calendar source with
    | .error _ => .error "ForbiddenException"
    | .ok (booking_calendar, min_nights, max_nights) =>
      let ranges := get_date_ranges .available booking_calendar
      .ok ([], some (booking_calendar,
        env.get_rate_data source ranges min_nights max_nights true))

/-! ## Search-parameter carry-forward (`AirbnbSearchScraper.__add_search_params`)

`params` is a Python dict; assignment `params[k] = v` is modelled by
`setKey` on an association list (replace the first binding of `k`, or
append).  The `urlparse`/`parse_qs`/`json.loads` decoding of the previous
request's URL is external (the inverse of the external URL builder), so
the function takes its result directly: the `request` variables object and
the plain query-string parameters, each a partial map.  Accessing a
missing key of `variables` raises a `KeyError`, modelled as `none`. -/

/-- Dict assignment on an association list: replace the first binding of
the key, or append a new one. -/
def setKey (l : List (String × String)) (k v : String) : List (String × String) :=
  match l with
  | [] => [(k, v)]
  | (k', v') :: rest => if k' = k then (k, v) :: rest else (k', v') :: setKey rest k v

/-- The `request` object JSON-decoded out of the `variables` query
parameter of the previous URL. -/
structure ReqVariables where
  checkin : Option String
  checkout : Option String
  priceMax : Option String
  priceMin : Option String
deriving DecidableEq, Repr

/-- The plain (non-JSON) query-string parameters the carry-forward step
reads. -/
structure QsParams where
  ne_lat : Option String
  ne_lng : Option String
  sw_lat : Option String
  sw_lng : Option String
deriving DecidableEq, Repr

/-- Copy a value into `params` under a key when the source field is
present, else leave `params` unchanged. -/
def copyIfPresent (params : List (String × String)) (k : String) :
    Option String → List (String × String)
  | some v => setKey params k v
  | none => params

/-- The price-bound and bounding-box assignments shared by both paths of
`__add_search_params`: each key copied only when the corresponding field
is present in the parsed query. -/
def addTailParams (params : List (String × String)) (reqVars : ReqVariables)
    (parsed_qs : QsParams) : List (String × String) :=
  let params := copyIfPresent params "priceMax" reqVars.priceMax
  let params := copyIfPresent params "priceMin" reqVars.priceMin
  let params := copyIfPresent params "ne_lat" parsed_qs.ne_lat
  let params := copyIfPresent params "ne_lng" parsed_qs.ne_lng
  let params := copyIfPresent params "sw_lat" parsed_qs.sw_lat
  copyIfPresent params "sw_lng" parsed_qs.sw_lng

/-- Embeds `AirbnbSearchScraper.__add_search_params`: carry forward check-in and
check-out dates, price bounds and bounding-box corners parsed from the
previous request's URL.  `checkout` is read whenever `checkin` is present;
if it is then missing, the dict access raises a `KeyError` (`none`). -/
def add_search_params (params : List (String × String)) (reqVars : ReqVariables)
    (parsed_qs : QsParams) : Option (List (String × String)) :=
  match reqVars.checkin with
  | some ci =>
    match reqVars.checkout with
    | none => none
    | some co =>
      some (addTailParams (setKey (setKey params "checkin" ci) "checkout" co) reqVars parsed_qs)
  | none => some (addTailParams params reqVars parsed_qs)

/-- Dict lookup on an association list (first binding wins). -/
def lookupKey : List (String × String) → String → Option String
  | [], _ => none
  | (k', v) :: rest, k => if k' = k then some v else lookupKey rest k

/-! ## Search crawler (`AirbnbSearchScraper`)

The `Explore.search` collaborator is scripted as a list of `Page`s
consumed in request order: the listing ids that
`Pdp.collect_listings_from_sections` extracts from the response, the
pagination state's `hasNextPage` flag, and the response's geography
metadata.  URL building, the parameter threading through
`Explore.get_url`, and the `itemsOffset` update pass through external
collaborators and do not alter which scripted response arrives next, so
they are not threaded through the loop (the carry-forward step itself is
embedded above as `add_search_params`).  If the script runs out while the
loop still wants a next page, the run is `none` (a failed fetch, which
would propagate uncaught).  Reviews and detail fetches and log lines are
recorded as `SEvent`s; a fetched listing record is represented by its id
in the accumulated collection. -/

/-- Geography metadata: a mapping, modelled as an association list. -/
abbrev Geo := List (String × String)

/-- Python `dict.update`: write every binding of the second map into the
first, keeping bindings of the first whose keys the second lacks. -/
def geoUpdate (old new : Geo) : Geo :=
  new.foldl (fun acc kv => setKey acc kv.1 kv.2) old

/-- One scripted search response. -/
structure Page where
  listingIds : List String
  hasNextPage : Bool
  geography : Geo
deriving DecidableEq, Repr

/-- Observable effects of a crawl run, in program order. -/
inductive SEvent where
  | dupWarning : String → SEvent
  | fetchReviews : String → SEvent
  | fetchListing : String → SEvent
  | save : String → List String → SEvent
deriving DecidableEq, Repr

/-- Result of the per-page `for listing_id in listing_ids` loop: events in
order, listing records appended, the grown seen-id set, and the number of
new listings counted. -/
structure PageResult where
  events : List SEvent
  added : List String
  seen : List String
  count : Nat
deriving DecidableEq, Repr

/-- The per-page loop of `AirbnbSearchScraper.run`: ids already seen are
skipped with a duplicate warning; new ids are marked seen, counted, their
reviews fetched and their full listing fetched and appended. -/
def processIds (seen : List String) : List String → PageResult
  | [] => ⟨[], [], seen, 0⟩
  | listing_id :: rest =>
    if listing_id ∈ seen then
      let r := processIds seen rest
      ⟨SEvent.dupWarning listing_id :: r.events, r.added, r.seen, r.count⟩
    else
      let r := processIds (listing_id :: seen) rest
      ⟨SEvent.fetchReviews listing_id :: SEvent.fetchListing listing_id :: r.events,
        listing_id :: r.added, r.seen, r.count + 1⟩

/-- The `while pagination.get('hasNextPage')` loop: the current response's
listings are processed only when its pagination reports a next page;
otherwise the loop exits and the accumulated collection is saved under the
original query. -/
def searchLoop (query : String) (seen : List String) (n : Nat) (listings : List String) :
    List Page → Option (List SEvent × List String × Nat)
  | [] => none
  | page :: rest =>
    if page.hasNextPage then
      let r := processIds seen page.listingIds
      match searchLoop query r.seen (n + r.count) (listings ++ r.added) rest with
      | none => none
      | some (evs, seenF, nF) => some (r.events ++ evs, seenF, nF)
    else
      some ([SEvent.save query listings], seen, n)

/-- Instance state of `AirbnbSearchScraper`, created once in its
constructor: the geography cache and the seen-id set. -/
structure SState where
  geography : Geo
  ids_seen : List String
deriving DecidableEq, Repr

/-- Embeds `AirbnbSearchScraper.run`: issue the first search, merge its geography
metadata into the instance cache (once, before the page loop), then run
the page loop from that same first response, and save the accumulated
collection.  Returns the event trace, the updated instance state, and the
reported new-listing count. -/
def searchRun (st : SState) (query : String) (pages : List Page) :
    Option (List SEvent × SState × Nat) :=
  match pages with
  | [] => none
  | page :: _ =>
    let geo := geoUpdate st.geography page.geography
    match searchLoop query st.ids_seen 0 [] pages with
    | none => none
    | some (evs, seenF, nF) => some (evs, ⟨geo, seenF⟩, nF)

/-- The listing ids of the pages the loop actually processes: pages
strictly before the first one whose pagination lacks a next page. -/
def processedIds (pages : List Page) : List String :=
  ((pages.takeWhile (·.hasNextPage)).map (·.listingIds)).flatten

/-! ## Concrete inputs used to instantiate the theorems -/

/-- A contiguous calendar segment of one status. -/
def calSeg (start len : Nat) (status : Status) : Calendar :=
  (List.range len).map (fun i => (start + i, status))

/-- A 63-day booked run, one available day, then a 55-day booked run. -/
def calLong : Calendar := calSeg 0 63 .booked ++ [(63, .available)] ++ calSeg 64 55 .booked

/-- Two 40-day booked runs separated by one available day. -/
def cal4040 : Calendar := calSeg 0 40 .booked ++ [(40, .available)] ++ calSeg 41 40 .booked

/-- A single 55-day booked run. -/
def cal55 : Calendar := calSeg 0 55 .booked

/-- A single 63-day booked run. -/
def cal63 : Calendar := calSeg 0 63 .booked

/-- A two-day calendar with one booked and one available day. -/
def calSmall : Calendar := [(0, .booked), (1, .available)]

/-- Environment of a delisted listing: the calendar fetch is Forbidden and
the existence probe answers 410 Gone. -/
def envGone : CalEnv :=
  { get_calendar := fun _ => .error ()
    get_rate_data := fun _ _ _ _ _ => none
    probe_status := fun _ => 410
    index_ids := [] }

/-- Environment whose rate-data fetch returns no pricing data. -/
def envNoPricing : CalEnv :=
  { get_calendar := fun _ => .ok (calSmall, 2, 365)
    get_rate_data := fun _ _ _ _ _ => none
    probe_status := fun _ => 200
    index_ids := [] }

/-- Environment for a single-mode query: the fetched calendar holds a
63-day booked run the normalizer would remove. -/
def envSingle : CalEnv :=
  { get_calendar := fun _ => .ok (cal63, 1, 365)
    get_rate_data := fun _ _ _ _ _ => some "rates"
    probe_status := fun _ => 200
    index_ids := [] }

/-- First search page: lists L1 and L2, and L1 again (a same-page
duplicate), with a next page. -/
def pageA : Page := ⟨["L1", "L2", "L1"], true, [("city", "Warsaw")]⟩

/-- Second search page: repeats L2 and introduces L3. -/
def pageB : Page := ⟨["L2", "L3"], true, [("country", "PL")]⟩

/-- Terminal search page: no next page; its listing is never processed. -/
def pageEnd : Page := ⟨["L9"], false, [("city", "Krakow")]⟩

/-- Third-run page reusing L1 and introducing L4. -/
def pageC : Page := ⟨["L1", "L4"], true, [("city", "Krakow"), ("zone", "A")]⟩

/-- The scripted pages of the example crawl run. -/
def pagesW : List Page := [pageA, pageB, pageEnd]

/-- The event trace of the example crawl run over `pagesW` from a fresh
instance. -/
def evsW : List SEvent :=
  [SEvent.fetchReviews "L1", SEvent.fetchListing "L1",
   SEvent.fetchReviews "L2", SEvent.fetchListing "L2",
   SEvent.dupWarning "L1",
   SEvent.dupWarning "L2",
   SEvent.fetchReviews "L3", SEvent.fetchListing "L3",
   SEvent.save "warsaw" ["L1", "L2", "L3"]]

/-- The scripted pages of the example second crawl run. -/
def pages2W : List Page := [pageC, pageEnd]

/-- The event trace of the example second crawl run, starting from the
state left by the first. -/
def evs2W : List SEvent :=
  [SEvent.dupWarning "L1",
   SEvent.fetchReviews "L4", SEvent.fetchListing "L4",
   SEvent.save "krakow" ["L4"]]

/-- Instance state after the first example run. -/
def st1W : SState := ⟨[("city", "Warsaw")], ["L3", "L2", "L1"]⟩

/-- Instance state after the second example run. -/
def st2W : SState := ⟨[("city", "Krakow"), ("zone", "A")], ["L4", "L3", "L2", "L1"]⟩

/-- Example `params` dict before the carry-forward step. -/
def paramsW : List (String × String) := [("itemsOffset", "0"), ("placeId", "XYZ")]

/-- Example decoded `variables.request` object: dates and a price
maximum present, no price minimum. -/
def reqVarsW : ReqVariables := ⟨some "2023-01-01", some "2023-01-07", some "900", none⟩

/-- Example plain query-string parameters: two bounding-box corners
present. -/
def qsW : QsParams := ⟨some "52.3", none, some "52.1", none⟩

/-! ## Lemmas about the range decomposition `runs` -/

theorem runs_head_start (d : Nat) (ds : List Nat) :
    ∃ l rest, runs (d :: ds) = (d, l) :: rest ∧ 0 < l := by
  rcases h : runs ds with _ | ⟨⟨s, l⟩, rest⟩
  · exact ⟨1, [], by simp [runs, h], Nat.one_pos⟩
  · by_cases hadj : s = d + 1
    · exact ⟨l + 1, rest, by simp [runs, h, hadj], Nat.succ_pos l⟩
    · exact ⟨1, (s, l) :: rest, by simp [runs, h, hadj], Nat.one_pos⟩

/-- Soundness of the run decomposition on a strictly increasing list: each
produced (start, length) pair has positive length, all its dates are in
the list, and the date just past its end is not. -/
theorem runs_sound : ∀ {L : List Nat}, L.Pairwise (· < ·) →
    ∀ sl ∈ runs L, 0 < sl.2 ∧ (∀ i < sl.2, sl.1 + i ∈ L) ∧ sl.1 + sl.2 ∉ L := by
  intro L
  induction L with
  | nil => intro _ sl hsl; simp [runs] at hsl
  | cons d ds ih =>
    intro hL sl hsl
    have hd : ∀ x ∈ ds, d < x := (List.pairwise_cons.mp hL).1
    have hds : ds.Pairwise (· < ·) := (List.pairwise_cons.mp hL).2
    rcases hruns : runs ds with _ | ⟨⟨s, l⟩, rest⟩
    · have hds_nil : ds = [] := by
        cases ds with
        | nil => rfl
        | cons e es =>
          obtain ⟨l', rest', heq, _⟩ := runs_head_start e es
          rw [heq] at hruns
          exact absurd hruns (List.cons_ne_nil _ _)
      subst hds_nil
      simp [runs] at hsl
      subst hsl
      refine ⟨Nat.one_pos, ?_, ?_⟩
      · intro i hi
        interval_cases i
        simp
      · simp
    · have hmemds := ih hds
      have hs_props := hmemds (s, l) (by rw [hruns]; exact List.mem_cons_self _ _)
      by_cases hadj : s = d + 1
      · have heq : runs (d :: ds) = (d, l + 1) :: rest := by simp [runs, hruns, hadj]
        rw [heq] at hsl
        rcases List.mem_cons.mp hsl with h1 | h2
        · subst h1
          refine ⟨Nat.succ_pos l, ?_, ?_⟩
          · intro i hi
            match i with
            | 0 => exact List.mem_cons_self _ _
            | j + 1 =>
              have harith : d + (j + 1) = s + j := by omega
              rw [harith]
              exact List.mem_cons_of_mem _ (hs_props.2.1 j (by omega))
          · have harith : d + (l + 1) = s + l := by omega
            rw [harith]
            simp only [List.mem_cons, not_or]
            exact ⟨by omega, hs_props.2.2⟩
        · have hmem := hmemds sl (by rw [hruns]; exact List.mem_cons_of_mem _ h2)
          refine ⟨hmem.1, fun i hi => List.mem_cons_of_mem _ (hmem.2.1 i hi), ?_⟩
          have h0 : sl.1 ∈ ds := by
            have := hmem.2.1 0 hmem.1
            simpa using this
          have hlt := hd _ h0
          simp only [List.mem_cons, not_or]
          exact ⟨by omega, hmem.2.2⟩
      · have heq : runs (d :: ds) = (d, 1) :: (s, l) :: rest := by simp [runs, hruns, hadj]
        rw [heq] at hsl
        rcases List.mem_cons.mp hsl with h1 | h2
        · subst h1
          refine ⟨Nat.one_pos, ?_, ?_⟩
          · intro i hi
            interval_cases i
            exact List.mem_cons_self _ _
          · simp only [List.mem_cons, not_or]
            refine ⟨by omega, ?_⟩
            intro hmem
            cases ds with
            | nil => simp [runs] at hruns
            | cons e es =>
              obtain ⟨l', rest', heq', _⟩ := runs_head_start e es
              rw [heq'] at hruns
              have hse : s = e := by
                injection hruns with hpair _
                injection hpair with hse _
                exact hse.symm
              have hde : d < e := hd e (List.mem_cons_self _ _)
              rcases List.mem_cons.mp hmem with h3 | h4
              · omega
              · have := (List.pairwise_cons.mp hds).1 _ h4
                omega
        · have hmem := hmemds sl (by rw [hruns]; exact h2)
          refine ⟨hmem.1, fun i hi => List.mem_cons_of_mem _ (hmem.2.1 i hi), ?_⟩
          have h0 : sl.1 ∈ ds := by
            have := hmem.2.1 0 hmem.1
            simpa using this
          have hlt := hd _ h0
          simp only [List.mem_cons, not_or]
          exact ⟨by omega, hmem.2.2⟩

/-- Completeness: every date of a strictly increasing list is covered by
one of its runs. -/
theorem runs_complete : ∀ {L : List Nat}, L.Pairwise (· < ·) →
    ∀ d ∈ L, ∃ sl ∈ runs L, sl.1 ≤ d ∧ d < sl.1 + sl.2 := by
  intro L
  induction L with
  | nil => intro _ d hd; simp at hd
  | cons e es ih =>
    intro hL d hd
    have hes : es.Pairwise (· < ·) := (List.pairwise_cons.mp hL).2
    rcases List.mem_cons.mp hd with rfl | hmem
    · obtain ⟨l, rest, heq, hl⟩ := runs_head_start d es
      exact ⟨(d, l), by rw [heq]; exact List.mem_cons_self _ _, Nat.le_refl d, by omega⟩
    · obtain ⟨sl, hsl, h1, h2⟩ := ih hes d hmem
      rcases hruns : runs es with _ | ⟨⟨s, l⟩, rest⟩
      · rw [hruns] at hsl; simp at hsl
      · rw [hruns] at hsl
        by_cases hadj : s = e + 1
        · have heq : runs (e :: es) = (e, l + 1) :: rest := by simp [runs, hruns, hadj]
          rcases List.mem_cons.mp hsl with h3 | h4
          · subst h3
            exact ⟨(e, l + 1), by rw [heq]; exact List.mem_cons_self _ _, by omega, by omega⟩
          · exact ⟨sl, by rw [heq]; exact List.mem_cons_of_mem _ h4, h1, h2⟩
        · have heq : runs (e :: es) = (e, 1) :: (s, l) :: rest := by simp [runs, hruns, hadj]
          exact ⟨sl, by rw [heq]; exact List.mem_cons_of_mem _ hsl, h1, h2⟩

/-- Successive runs are separated: a run ends strictly before any later
run starts. -/
theorem runs_pairwise : ∀ {L : List Nat}, L.Pairwise (· < ·) →
    (runs L).Pairwise (fun a b => a.1 + a.2 ≤ b.1) := by
  intro L
  induction L with
  | nil => simp [runs]
  | cons e es ih =>
    intro hL
    have hd : ∀ x ∈ es, e < x := (List.pairwise_cons.mp hL).1
    have hes : es.Pairwise (· < ·) := (List.pairwise_cons.mp hL).2
    have hih := ih hes
    rcases hruns : runs es with _ | ⟨⟨s, l⟩, rest⟩
    · simp [runs, hruns]
    · rw [hruns] at hih
      have hhead := (List.pairwise_cons.mp hih).1
      have htail := (List.pairwise_cons.mp hih).2
      by_cases hadj : s = e + 1
      · have heq : runs (e :: es) = (e, l + 1) :: rest := by simp [runs, hruns, hadj]
        rw [heq]
        refine List.pairwise_cons.mpr ⟨?_, htail⟩
        intro b hb
        have := hhead b hb
        omega
      · have heq : runs (e :: es) = (e, 1) :: (s, l) :: rest := by simp [runs, hruns, hadj]
        rw [heq]
        have hs_mem : s ∈ es := by
          have := runs_sound hes (s, l) (by rw [hruns]; exact List.mem_cons_self _ _)
          simpa using this.2.1 0 this.1
        have hes' : e < s := hd s hs_mem
        refine List.pairwise_cons.mpr ⟨?_, hih⟩
        intro b hb
        rcases List.mem_cons.mp hb with h3 | h4
        · subst h3; omega
        · have := hhead b h4
          omega

/-- Distinct runs of one list occupy disjoint date intervals. -/
theorem runs_disjoint {L : List Nat} (hL : L.Pairwise (· < ·)) :
    ∀ a ∈ runs L, ∀ b ∈ runs L, a ≠ b →
      ∀ d : Nat, ¬(a.1 ≤ d ∧ d < a.1 + a.2 ∧ b.1 ≤ d ∧ d < b.1 + b.2) := by
  have hpw := (runs_pairwise hL).imp
    (S := fun a b => ∀ d : Nat, ¬(a.1 ≤ d ∧ d < a.1 + a.2 ∧ b.1 ≤ d ∧ d < b.1 + b.2))
    (by intro a b hab d; omega)
  have hsym : Symmetric (fun a b : Nat × Nat =>
      ∀ d : Nat, ¬(a.1 ≤ d ∧ d < a.1 + a.2 ∧ b.1 ≤ d ∧ d < b.1 + b.2)) := by
    intro a b hab d h
    exact hab d ⟨h.2.2.1, h.2.2.2, h.1, h.2.1⟩
  exact fun a ha b hb hne => hpw.forall hsym ha hb hne

/-- A run of a sorted sublist is contained in a run of the larger sorted
list. -/
theorem runs_subset_bound {S S' : List Nat} (hS : S.Pairwise (· < ·))
    (hS' : S'.Pairwise (· < ·)) (hsub : ∀ x ∈ S', x ∈ S) :
    ∀ sl' ∈ runs S', ∃ sl ∈ runs S, sl.1 ≤ sl'.1 ∧ sl'.1 + sl'.2 ≤ sl.1 + sl.2 := by
  intro sl' hsl'
  obtain ⟨hpos, hmem, _⟩ := runs_sound hS' sl' hsl'
  have hstart : sl'.1 ∈ S := hsub _ (by simpa using hmem 0 hpos)
  obtain ⟨sl, hsl, h1, h2⟩ := runs_complete hS sl'.1 hstart
  refine ⟨sl, hsl, h1, ?_⟩
  obtain ⟨_, _, hend⟩ := runs_sound hS sl hsl
  have hstep : ∀ i < sl'.2, sl'.1 + i < sl.1 + sl.2 := by
    intro i
    induction i with
    | zero => intro _; omega
    | succ j ihj =>
      intro hj
      have hj' : sl'.1 + (j + 1) ∈ S := hsub _ (hmem (j + 1) hj)
      have hjlt := ihj (by omega)
      by_cases hcase : sl'.1 + (j + 1) = sl.1 + sl.2
      · exact absurd (hcase ▸ hj') hend
      · omega
  have := hstep (sl'.2 - 1) (by omega)
  omega

/-! ## Characterization of the normalization loop -/

theorem foldl_normStep_fst (rs : List DateRange) (c : Calendar) (w : List DateRange) :
    (rs.foldl normStep (c, w)).1 =
      c.filter (fun p => !(rs.any (fun r => decide (r.length > 62) && r.containsDate p.1))) := by
  induction rs generalizing c w with
  | nil => simp
  | cons r rs ih =>
    rw [List.foldl_cons]
    by_cases h62 : r.length > 62
    · rw [show normStep (c, w) r = (removeRange c r, w) from by simp [normStep, h62]]
      rw [ih, removeRange, List.filter_filter]
      apply List.filter_congr
      intro p _
      simp only [List.any_cons, decide_eq_true h62, Bool.true_and, Bool.not_or]
      exact Bool.and_comm _ _
    · have hpred : ∀ p : Nat × Status,
          ((r :: rs).any (fun r' => decide (r'.length > 62) && r'.containsDate p.1)) =
            (rs.any (fun r' => decide (r'.length > 62) && r'.containsDate p.1)) := by
        intro p
        simp [List.any_cons, h62]
      by_cases h50 : r.length > 50
      · rw [show normStep (c, w) r = (c, w ++ [r]) from by simp [normStep, h62, h50]]
        rw [ih]
        apply List.filter_congr
        intro p _
        rw [hpred]
      · rw [show normStep (c, w) r = (c, w) from by simp [normStep, h62, h50]]
        rw [ih]
        apply List.filter_congr
        intro p _
        rw [hpred]

theorem foldl_normStep_snd (rs : List DateRange) (c : Calendar) (w : List DateRange) :
    (rs.foldl normStep (c, w)).2 =
      w ++ rs.filter (fun r => !decide (r.length > 62) && decide (r.length > 50)) := by
  induction rs generalizing c w with
  | nil => simp
  | cons r rs ih =>
    rw [List.foldl_cons]
    by_cases h62 : r.length > 62
    · rw [show normStep (c, w) r = (removeRange c r, w) from by simp [normStep, h62]]
      rw [ih, List.filter_cons]
      simp [h62]
    · by_cases h50 : r.length > 50
      · rw [show normStep (c, w) r = (c, w ++ [r]) from by simp [normStep, h62, h50]]
        rw [ih, List.filter_cons]
        simp [h62, h50]
      · rw [show normStep (c, w) r = (c, w) from by simp [normStep, h62, h50]]
        rw [ih, List.filter_cons]
        simp [h62, h50]

/-- The cleaned calendar is the original calendar minus the dates of its
booked ranges longer than 62 days. -/
theorem normalizeCal_eq_filter (cal : Calendar) :
    normalizeCal cal = cal.filter (fun p => !inLongRange cal p.1) := by
  unfold normalizeCal updateCalendarLoop inLongRange
  exact foldl_normStep_fst _ _ _

/-- The flagged ranges are exactly the booked ranges with length in
(50, 62]. -/
theorem warnsOf_eq (cal : Calendar) :
    warnsOf cal = (get_date_ranges .booked cal).filter
      (fun r => decide (50 < r.length) && decide (r.length ≤ 62)) := by
  unfold warnsOf updateCalendarLoop
  rw [foldl_normStep_snd, List.nil_append]
  apply List.filter_congr
  intro r _
  by_cases h62 : r.length > 62
  · simp [h62, Nat.not_le.mpr h62]
  · by_cases h50 : r.length > 50
    · simp [h62, h50, Nat.le_of_not_lt h62]
    · simp [h62, h50, Nat.not_lt.mp h50]

theorem sortedCal_filter (cal : Calendar) (q : Nat × Status → Bool) (h : SortedCal cal) :
    SortedCal (cal.filter q) := by
  unfold SortedCal at *
  exact h.sublist (List.Sublist.map Prod.fst (List.filter_sublist cal))

theorem sortedCal_normalizeCal (cal : Calendar) (h : SortedCal cal) :
    SortedCal (normalizeCal cal) := by
  rw [normalizeCal_eq_filter]
  exact sortedCal_filter cal _ h

/-- The date list underlying the status filter is sorted whenever the
calendar is. -/
theorem datesWithStatus_pairwise (status : Status) (cal : Calendar) (h : SortedCal cal) :
    (datesWithStatus status cal).Pairwise (· < ·) := by
  unfold datesWithStatus
  unfold SortedCal at h
  exact h.sublist (List.Sublist.map Prod.fst (List.filter_sublist cal))

theorem mem_datesWithStatus {status : Status} {cal : Calendar} {d : Nat} :
    d ∈ datesWithStatus status cal ↔ ∃ p ∈ cal, p.1 = d ∧ p.2 = status := by
  unfold datesWithStatus
  simp only [List.mem_map, List.mem_filter]
  constructor
  · rintro ⟨p, ⟨hp, hst⟩, rfl⟩
    exact ⟨p, hp, rfl, by simpa using hst⟩
  · rintro ⟨p, hp, rfl, hst⟩
    exact ⟨p, ⟨hp, by simpa using hst⟩, rfl⟩

/-- Membership in `get_date_ranges` unpacked to the underlying run list. -/
theorem mem_get_date_ranges {status : Status} {cal : Calendar} {r : DateRange} :
    r ∈ get_date_ranges status cal ↔
      r.status = status ∧ (r.start, r.length) ∈ runs (datesWithStatus status cal) := by
  unfold get_date_ranges
  simp only [List.mem_map]
  constructor
  · rintro ⟨⟨s, l⟩, hmem, rfl⟩
    exact ⟨rfl, hmem⟩
  · rintro ⟨hst, hmem⟩
    exact ⟨(r.start, r.length), hmem, by cases r; simpa using hst.symm⟩

/-- After one pass, no booked range of the cleaned calendar is longer than
62 days: any run of the cleaned booked dates sits inside a run of the
original booked dates, and runs longer than 62 days were removed whole. -/
theorem ranges_normalizeCal_le (cal : Calendar) (h : SortedCal cal) :
    ∀ r ∈ get_date_ranges .booked (normalizeCal cal), r.length ≤ 62 := by
  intro r hr
  by_contra hgt
  push_neg at hgt
  obtain ⟨_, hrun⟩ := mem_get_date_ranges.mp hr
  have hS : (datesWithStatus .booked cal).Pairwise (· < ·) :=
    datesWithStatus_pairwise _ _ h
  have hS' : (datesWithStatus .booked (normalizeCal cal)).Pairwise (· < ·) :=
    datesWithStatus_pairwise _ _ (sortedCal_normalizeCal cal h)
  have hsub : ∀ x ∈ datesWithStatus .booked (normalizeCal cal), x ∈ datesWithStatus .booked cal := by
    intro x hx
    obtain ⟨p, hp, hpx, hpst⟩ := mem_datesWithStatus.mp hx
    rw [normalizeCal_eq_filter] at hp
    exact mem_datesWithStatus.mpr ⟨p, (List.mem_filter.mp hp).1, hpx, hpst⟩
  obtain ⟨sl, hsl, h1, h2⟩ := runs_subset_bound hS hS' hsub (r.start, r.length) hrun
  have hprops' := runs_sound hS' (r.start, r.length) hrun
  have hstart_mem : r.start ∈ datesWithStatus .booked (normalizeCal cal) := by
    have := hprops'.2.1 0 hprops'.1
    simpa using this
  obtain ⟨p, hp, hpx, hpst⟩ := mem_datesWithStatus.mp hstart_mem
  rw [normalizeCal_eq_filter] at hp
  have hkeep := (List.mem_filter.mp hp).2
  have h1' : sl.1 ≤ r.start := h1
  have h2' : r.start + r.length ≤ sl.1 + sl.2 := h2
  have hpos : 0 < r.length := hprops'.1
  have hlong : inLongRange cal p.1 = true := by
    unfold inLongRange
    rw [List.any_eq_true]
    refine ⟨⟨.booked, sl.1, sl.2⟩, mem_get_date_ranges.mpr ⟨rfl, by simpa using hsl⟩, ?_⟩
    simp only [DateRange.containsDate, Bool.and_eq_true, decide_eq_true_eq]
    rw [hpx]
    exact ⟨by omega, by omega, by omega⟩
  rw [hlong] at hkeep
  simp at hkeep

theorem foldl_normStep_fst_id (rs : List DateRange) (c : Calendar) (w : List DateRange)
    (h : ∀ r ∈ rs, ¬r.length > 62) : (rs.foldl normStep (c, w)).1 = c := by
  induction rs generalizing c w with
  | nil => rfl
  | cons r rs ih =>
    rw [List.foldl_cons]
    have h62 := h r (List.mem_cons_self _ _)
    by_cases h50 : r.length > 50
    · rw [show normStep (c, w) r = (c, w ++ [r]) from by simp [normStep, h62, h50]]
      exact ih _ _ (fun r' hr' => h r' (List.mem_cons_of_mem _ hr'))
    · rw [show normStep (c, w) r = (c, w) from by simp [normStep, h62, h50]]
      exact ih _ _ (fun r' hr' => h r' (List.mem_cons_of_mem _ hr'))

/-- The normalization loop is idempotent on the calendar. -/
theorem normalizeCal_idem (cal : Calendar) (h : SortedCal cal) :
    normalizeCal (normalizeCal cal) = normalizeCal cal := by
  have hshort := ranges_normalizeCal_le cal h
  show (updateCalendarLoop (normalizeCal cal)).1 = normalizeCal cal
  unfold updateCalendarLoop
  exact foldl_normStep_fst_id _ _ _ (fun r hr => by have := hshort r hr; omega)

/-- No entry inside a booked range of length at most 62 is removed: the
only ranges that could remove it are longer than 62 days, and distinct
runs are interval-disjoint. -/
theorem mem_normalizeCal_of_short (cal : Calendar) (h : SortedCal cal) (r : DateRange)
    (hr : r ∈ get_date_ranges .booked cal) (hlen : r.length ≤ 62)
    (p : Nat × Status) (hp : p ∈ cal) (hd : r.containsDate p.1 = true) :
    p ∈ normalizeCal cal := by
  rw [normalizeCal_eq_filter, List.mem_filter]
  refine ⟨hp, ?_⟩
  simp only [Bool.not_eq_true']
  by_contra hcon
  rw [Bool.not_eq_false] at hcon
  obtain ⟨r', hr', hprops⟩ := List.any_eq_true.mp hcon
  rw [Bool.and_eq_true] at hprops
  have hlen' : r'.length > 62 := by simpa using hprops.1
  have hS : (datesWithStatus .booked cal).Pairwise (· < ·) :=
    datesWithStatus_pairwise _ _ h
  obtain ⟨_, hrun⟩ := mem_get_date_ranges.mp hr
  obtain ⟨_, hrun'⟩ := mem_get_date_ranges.mp hr'
  have hne : (r.start, r.length) ≠ (r'.start, r'.length) := by
    intro heq
    injection heq with _ hlens
    omega
  have hdisj := runs_disjoint hS _ hrun _ hrun' hne p.1
  simp only [DateRange.containsDate, Bool.and_eq_true, decide_eq_true_eq] at hd hprops
  exact hdisj ⟨hd.1, hd.2, hprops.2.1, hprops.2.2⟩

/-! ## Lemmas about the per-page loop `processIds` -/

theorem processIds_seen_mem (seen ids : List String) (X : String) :
    X ∈ (processIds seen ids).seen ↔ X ∈ seen ∨ X ∈ ids := by
  induction ids generalizing seen with
  | nil => simp [processIds]
  | cons i rest ih =>
    by_cases hi : i ∈ seen
    · simp only [processIds, if_pos hi, ih, List.mem_cons]
      constructor
      · rintro (h | h)
        · exact Or.inl h
        · exact Or.inr (Or.inr h)
      · rintro (h | h | h)
        · exact Or.inl h
        · exact Or.inl (h ▸ hi)
        · exact Or.inr h
    · simp only [processIds, if_neg hi, ih, List.mem_cons]
      tauto

theorem processIds_count_fetch (seen ids : List String) (X : String) :
    (processIds seen ids).events.count (SEvent.fetchListing X) =
      if X ∈ seen then 0 else if X ∈ ids then 1 else 0 := by
  induction ids generalizing seen with
  | nil => simp [processIds]
  | cons i rest ih =>
    by_cases hi : i ∈ seen
    · simp only [processIds, if_pos hi]
      rw [List.count_cons, ih seen]
      by_cases hX : X ∈ seen
      · simp [hX]
      · have hXi : X ≠ i := fun h => hX (h ▸ hi)
        simp [hX, List.mem_cons, hXi]
    · simp only [processIds, if_neg hi]
      rw [List.count_cons, List.count_cons, ih (i :: seen)]
      by_cases hXi : X = i
      · subst hXi
        simp [hi, List.mem_cons]
      · by_cases hX : X ∈ seen
        · simp [hX, List.mem_cons, hXi, Ne.symm hXi]
        · simp [hX, List.mem_cons, hXi, Ne.symm hXi]

theorem processIds_count_reviews (seen ids : List String) (X : String) :
    (processIds seen ids).events.count (SEvent.fetchReviews X) =
      if X ∈ seen then 0 else if X ∈ ids then 1 else 0 := by
  induction ids generalizing seen with
  | nil => simp [processIds]
  | cons i rest ih =>
    by_cases hi : i ∈ seen
    · simp only [processIds, if_pos hi]
      rw [List.count_cons, ih seen]
      by_cases hX : X ∈ seen
      · simp [hX]
      · have hXi : X ≠ i := fun h => hX (h ▸ hi)
        simp [hX, List.mem_cons, hXi]
    · simp only [processIds, if_neg hi]
      rw [List.count_cons, List.count_cons, ih (i :: seen)]
      by_cases hXi : X = i
      · subst hXi
        simp [hi, List.mem_cons]
      · by_cases hX : X ∈ seen
        · simp [hX, List.mem_cons, hXi, Ne.symm hXi]
        · simp [hX, List.mem_cons, hXi, Ne.symm hXi]

/-- Every occurrence of an id on a page becomes exactly one of: a listing
fetch, or a duplicate warning. -/
theorem processIds_conservation (seen ids : List String) (X : String) :
    ids.count X = (processIds seen ids).events.count (SEvent.fetchListing X) +
      (processIds seen ids).events.count (SEvent.dupWarning X) := by
  induction ids generalizing seen with
  | nil => simp [processIds]
  | cons i rest ih =>
    by_cases hi : i ∈ seen
    · simp only [processIds, if_pos hi]
      rw [List.count_cons, List.count_cons, List.count_cons, ih seen]
      by_cases hXi : i = X
      · subst hXi
        simp
        omega
      · simp [hXi]
    · simp only [processIds, if_neg hi]
      rw [List.count_cons, List.count_cons, List.count_cons, List.count_cons,
        List.count_cons, ih (i :: seen)]
      by_cases hXi : i = X
      · subst hXi
        simp
        omega
      · simp [hXi]

theorem processIds_mem_added (seen ids : List String) (x : String) :
    x ∈ (processIds seen ids).added ↔ x ∈ ids ∧ x ∉ seen := by
  induction ids generalizing seen with
  | nil => simp [processIds]
  | cons i rest ih =>
    by_cases hi : i ∈ seen
    · simp only [processIds, if_pos hi, ih, List.mem_cons]
      constructor
      · rintro ⟨h1, h2⟩
        exact ⟨Or.inr h1, h2⟩
      · rintro ⟨h1 | h1, h2⟩
        · exact absurd (h1 ▸ hi) h2
        · exact ⟨h1, h2⟩
    · simp only [processIds, if_neg hi, List.mem_cons, ih]
      constructor
      · rintro (rfl | ⟨h1, h2⟩)
        · exact ⟨Or.inl rfl, hi⟩
        · exact ⟨Or.inr h1, fun hx => h2 (Or.inr hx)⟩
      · rintro ⟨rfl | h1, h2⟩
        · exact Or.inl rfl
        · by_cases hxi : x = i
          · exact Or.inl hxi
          · exact Or.inr ⟨h1, fun hx => hx.elim hxi h2⟩

theorem processIds_added_nodup (seen ids : List String) :
    (processIds seen ids).added.Nodup := by
  induction ids generalizing seen with
  | nil => simp [processIds]
  | cons i rest ih =>
    by_cases hi : i ∈ seen
    · simp only [processIds, if_pos hi]
      exact ih seen
    · simp only [processIds, if_neg hi]
      refine List.nodup_cons.mpr ⟨?_, ih (i :: seen)⟩
      intro hmem
      have := (processIds_mem_added (i :: seen) rest i).mp hmem
      exact this.2 (List.mem_cons_self _ _)

theorem processIds_count_eq_length (seen ids : List String) :
    (processIds seen ids).count = (processIds seen ids).added.length := by
  induction ids generalizing seen with
  | nil => simp [processIds]
  | cons i rest ih =>
    by_cases hi : i ∈ seen
    · simp only [processIds, if_pos hi]
      exact ih seen
    · simp only [processIds, if_neg hi, List.length_cons]
      rw [ih (i :: seen)]

theorem processIds_no_save (seen ids : List String) (q : String) (l : List String) :
    SEvent.save q l ∉ (processIds seen ids).events := by
  induction ids generalizing seen with
  | nil => simp [processIds]
  | cons i rest ih =>
    by_cases hi : i ∈ seen
    · simp only [processIds, if_pos hi, List.mem_cons]
      rintro (h | h)
      · exact absurd h (by simp)
      · exact ih seen h
    · simp only [processIds, if_neg hi, List.mem_cons]
      rintro (h | h | h)
      · exact absurd h (by simp)
      · exact absurd h (by simp)
      · exact ih (i :: seen) h

/-! ## Lemmas about the page loop `searchLoop` -/

theorem processedIds_cons_true (p : Page) (rest : List Page) (h : p.hasNextPage = true) :
    processedIds (p :: rest) = p.listingIds ++ processedIds rest := by
  simp [processedIds, List.takeWhile_cons, h]

theorem processedIds_cons_false (p : Page) (rest : List Page) (h : p.hasNextPage = false) :
    processedIds (p :: rest) = [] := by
  simp [processedIds, List.takeWhile_cons, h]

theorem searchLoop_cons_true {q : String} {seen : List String} {n : Nat}
    {listings : List String} {p : Page} {rest : List Page} {evs : List SEvent}
    {seenF : List String} {nF : Nat} (hpage : p.hasNextPage = true)
    (h : searchLoop q seen n listings (p :: rest) = some (evs, seenF, nF)) :
    ∃ evs', searchLoop q (processIds seen p.listingIds).seen
        (n + (processIds seen p.listingIds).count)
        (listings ++ (processIds seen p.listingIds).added) rest = some (evs', seenF, nF)
      ∧ evs = (processIds seen p.listingIds).events ++ evs' := by
  simp only [searchLoop, hpage, if_true] at h
  rcases hrec : searchLoop q (processIds seen p.listingIds).seen
      (n + (processIds seen p.listingIds).count)
      (listings ++ (processIds seen p.listingIds).added) rest with _ | ⟨⟨evs', seenF', nF'⟩⟩
  · rw [hrec] at h
    exact absurd h (by simp)
  · rw [hrec] at h
    simp only [Option.some.injEq, Prod.mk.injEq] at h
    obtain ⟨h1, h2, h3⟩ := h
    subst h1
    subst h2
    subst h3
    exact ⟨evs', rfl, rfl⟩

theorem searchLoop_cons_false {q : String} {seen : List String} {n : Nat}
    {listings : List String} {p : Page} {rest : List Page} {evs : List SEvent}
    {seenF : List String} {nF : Nat} (hpage : p.hasNextPage = false)
    (h : searchLoop q seen n listings (p :: rest) = some (evs, seenF, nF)) :
    evs = [SEvent.save q listings] ∧ seenF = seen ∧ nF = n := by
  simp only [searchLoop, hpage, Bool.false_eq_true, if_false] at h
  simp only [Option.some.injEq, Prod.mk.injEq] at h
  exact ⟨h.1.symm, h.2.1.symm, h.2.2.symm⟩

theorem searchLoop_count_fetch : ∀ (pages : List Page) (q : String) (seen : List String)
    (n : Nat) (listings : List String) (evs : List SEvent) (seenF : List String) (nF : Nat),
    searchLoop q seen n listings pages = some (evs, seenF, nF) →
    ∀ X : String, evs.count (SEvent.fetchListing X) =
      if X ∈ seen then 0 else if X ∈ processedIds pages then 1 else 0 := by
  intro pages
  induction pages with
  | nil =>
    intro q seen n listings evs seenF nF h X
    simp [searchLoop] at h
  | cons p rest ih =>
    intro q seen n listings evs seenF nF h X
    by_cases hpage : p.hasNextPage
    · obtain ⟨evs', hrec, rfl⟩ := searchLoop_cons_true hpage h
      rw [List.count_append, processIds_count_fetch, ih _ _ _ _ _ _ _ hrec X,
        processedIds_cons_true p rest hpage]
      by_cases hX : X ∈ seen
      · simp [hX, processIds_seen_mem]
      · by_cases hXi : X ∈ p.listingIds
        · simp [hX, hXi, processIds_seen_mem, List.mem_append]
        · simp [hX, hXi, processIds_seen_mem, List.mem_append]
    · have hpage' : p.hasNextPage = false := by simpa using hpage
      obtain ⟨rfl, rfl, rfl⟩ := searchLoop_cons_false hpage' h
      rw [processedIds_cons_false p rest hpage']
      simp

theorem searchLoop_count_reviews : ∀ (pages : List Page) (q : String) (seen : List String)
    (n : Nat) (listings : List String) (evs : List SEvent) (seenF : List String) (nF : Nat),
    searchLoop q seen n listings pages = some (evs, seenF, nF) →
    ∀ X : String, evs.count (SEvent.fetchReviews X) =
      if X ∈ seen then 0 else if X ∈ processedIds pages then 1 else 0 := by
  intro pages
  induction pages with
  | nil =>
    intro q seen n listings evs seenF nF h X
    simp [searchLoop] at h
  | cons p rest ih =>
    intro q seen n listings evs seenF nF h X
    by_cases hpage : p.hasNextPage
    · obtain ⟨evs', hrec, rfl⟩ := searchLoop_cons_true hpage h
      rw [List.count_append, processIds_count_reviews, ih _ _ _ _ _ _ _ hrec X,
        processedIds_cons_true p rest hpage]
      by_cases hX : X ∈ seen
      · simp [hX, processIds_seen_mem]
      · by_cases hXi : X ∈ p.listingIds
        · simp [hX, hXi, processIds_seen_mem, List.mem_append]
        · simp [hX, hXi, processIds_seen_mem, List.mem_append]
    · have hpage' : p.hasNextPage = false := by simpa using hpage
      obtain ⟨rfl, rfl, rfl⟩ := searchLoop_cons_false hpage' h
      rw [processedIds_cons_false p rest hpage']
      simp

/-- Every occurrence of an id on a processed page results in exactly one
of: a listing fetch, or a duplicate warning. -/
theorem searchLoop_conservation : ∀ (pages : List Page) (q : String) (seen : List String)
    (n : Nat) (listings : List String) (evs : List SEvent) (seenF : List String) (nF : Nat),
    searchLoop q seen n listings pages = some (evs, seenF, nF) →
    ∀ X : String, (processedIds pages).count X =
      evs.count (SEvent.fetchListing X) + evs.count (SEvent.dupWarning X) := by
  intro pages
  induction pages with
  | nil =>
    intro q seen n listings evs seenF nF h X
    simp [searchLoop] at h
  | cons p rest ih =>
    intro q seen n listings evs seenF nF h X
    by_cases hpage : p.hasNextPage
    · obtain ⟨evs', hrec, rfl⟩ := searchLoop_cons_true hpage h
      rw [processedIds_cons_true p rest hpage, List.count_append, List.count_append,
        List.count_append, ih _ _ _ _ _ _ _ hrec X]
      have := processIds_conservation seen p.listingIds X
      omega
    · have hpage' : p.hasNextPage = false := by simpa using hpage
      obtain ⟨rfl, rfl, rfl⟩ := searchLoop_cons_false hpage' h
      rw [processedIds_cons_false p rest hpage']
      simp

theorem searchLoop_seenF : ∀ (pages : List Page) (q : String) (seen : List String)
    (n : Nat) (listings : List String) (evs : List SEvent) (seenF : List String) (nF : Nat),
    searchLoop q seen n listings pages = some (evs, seenF, nF) →
    ∀ X : String, X ∈ seenF ↔ X ∈ seen ∨ X ∈ processedIds pages := by
  intro pages
  induction pages with
  | nil =>
    intro q seen n listings evs seenF nF h X
    simp [searchLoop] at h
  | cons p rest ih =>
    intro q seen n listings evs seenF nF h X
    by_cases hpage : p.hasNextPage
    · obtain ⟨evs', hrec, rfl⟩ := searchLoop_cons_true hpage h
      rw [ih _ _ _ _ _ _ _ hrec X, processedIds_cons_true p rest hpage,
        processIds_seen_mem]
      simp only [List.mem_append]
      tauto
    · have hpage' : p.hasNextPage = false := by simpa using hpage
      obtain ⟨rfl, rfl, rfl⟩ := searchLoop_cons_false hpage' h
      rw [processedIds_cons_false p rest hpage']
      simp

/-- The terminal save: the loop ends with exactly one `save` event,
carrying the initial accumulator extended by the newly fetched ids, and
the reported count grows by exactly the number of those ids. -/
theorem searchLoop_save : ∀ (pages : List Page) (q : String) (seen : List String)
    (n : Nat) (listings : List String) (evs : List SEvent) (seenF : List String) (nF : Nat),
    searchLoop q seen n listings pages = some (evs, seenF, nF) →
    ∃ A : List String, A.Nodup
      ∧ (∀ x, x ∈ A ↔ x ∈ processedIds pages ∧ x ∉ seen)
      ∧ nF = n + A.length
      ∧ (∀ q' l, SEvent.save q' l ∈ evs ↔ q' = q ∧ l = listings ++ A) := by
  intro pages
  induction pages with
  | nil =>
    intro q seen n listings evs seenF nF h
    simp [searchLoop] at h
  | cons p rest ih =>
    intro q seen n listings evs seenF nF h
    by_cases hpage : p.hasNextPage
    · obtain ⟨evs', hrec, rfl⟩ := searchLoop_cons_true hpage h
      obtain ⟨A', hnd, hmem, hcount, hsave⟩ := ih _ _ _ _ _ _ _ hrec
      refine ⟨(processIds seen p.listingIds).added ++ A', ?_, ?_, ?_, ?_⟩
      · rw [List.nodup_append]
        refine ⟨processIds_added_nodup seen p.listingIds, hnd, ?_⟩
        intro x hx hx'
        have h1 := (processIds_mem_added seen p.listingIds x).mp hx
        have h2 := ((hmem x).mp hx').2
        exact h2 ((processIds_seen_mem seen p.listingIds x).mpr (Or.inr h1.1))
      · intro x
        rw [List.mem_append, processIds_mem_added, hmem x, processIds_seen_mem,
          processedIds_cons_true p rest hpage, List.mem_append]
        tauto
      · rw [hcount, processIds_count_eq_length, List.length_append]
        omega
      · intro q' l
        rw [List.mem_append]
        constructor
        · rintro (hin | hin)
          · exact absurd hin (processIds_no_save _ _ _ _)
          · obtain ⟨rfl, rfl⟩ := (hsave q' l).mp hin
            exact ⟨rfl, by rw [List.append_assoc]⟩
        · rintro ⟨rfl, rfl⟩
          refine Or.inr ((hsave q' (listings ++ ((processIds seen p.listingIds).added ++ A'))).mpr ?_)
          exact ⟨rfl, by rw [List.append_assoc]⟩
    · have hpage' : p.hasNextPage = false := by simpa using hpage
      obtain ⟨rfl, rfl, rfl⟩ := searchLoop_cons_false hpage' h
      refine ⟨[], List.nodup_nil, ?_, by simp, ?_⟩
      · intro x
        rw [processedIds_cons_false p rest hpage']
        simp
      · intro q' l
        simp

theorem searchRun_some {st : SState} {q : String} {pages : List Page}
    {evs : List SEvent} {stF : SState} {n : Nat}
    (h : searchRun st q pages = some (evs, stF, n)) :
    ∃ p rest, pages = p :: rest
      ∧ searchLoop q st.ids_seen 0 [] pages = some (evs, stF.ids_seen, n)
      ∧ stF.geography = geoUpdate st.geography p.geography := by
  cases pages with
  | nil => simp [searchRun] at h
  | cons p rest =>
    simp only [searchRun] at h
    rcases hloop : searchLoop q st.ids_seen 0 [] (p :: rest) with _ | ⟨⟨evs', seenF', nF'⟩⟩
    · rw [hloop] at h
      exact absurd h (by simp)
    · rw [hloop] at h
      simp only [Option.some.injEq, Prod.mk.injEq] at h
      obtain ⟨h1, h2, h3⟩ := h
      subst h1
      subst h3
      subst h2
      exact ⟨p, rest, rfl, rfl, rfl⟩

/-! ## Lemmas about dict assignment and lookup -/

theorem lookupKey_setKey_self (l : List (String × String)) (k v : String) :
    lookupKey (setKey l k v) k = some v := by
  induction l with
  | nil => simp [setKey, lookupKey]
  | cons p rest ih =>
    obtain ⟨k', v'⟩ := p
    by_cases h : k' = k
    · simp [setKey, lookupKey, h]
    · simp [setKey, lookupKey, h, ih]

theorem lookupKey_setKey_other (l : List (String × String)) (k v k' : String) (h : k' ≠ k) :
    lookupKey (setKey l k v) k' = lookupKey l k' := by
  induction l with
  | nil => simp [setKey, lookupKey, Ne.symm h]
  | cons p rest ih =>
    obtain ⟨k₀, v₀⟩ := p
    by_cases h0 : k₀ = k
    · subst h0
      simp [setKey, lookupKey, Ne.symm h]
    · simp only [setKey, if_neg h0, lookupKey]
      by_cases h1 : k₀ = k'
      · simp [h1]
      · simp [h1, ih]

theorem lookupKey_copyIfPresent_self (l : List (String × String)) (k : String)
    (o : Option String) :
    lookupKey (copyIfPresent l k o) k =
      match o with
      | some v => some v
      | none => lookupKey l k := by
  cases o with
  | none => rfl
  | some v => exact lookupKey_setKey_self l k v

theorem lookupKey_copyIfPresent_other (l : List (String × String)) (k : String)
    (o : Option String) (k' : String) (h : k' ≠ k) :
    lookupKey (copyIfPresent l k o) k' = lookupKey l k' := by
  cases o with
  | none => rfl
  | some v => exact lookupKey_setKey_other l k v k' h

/-- Python `dict.update` leaves keys absent from the update map unchanged. -/
theorem lookupKey_geoUpdate_of_not_key (old new : Geo) (k : String)
    (h : ∀ p ∈ new, p.1 ≠ k) : lookupKey (geoUpdate old new) k = lookupKey old k := by
  induction new generalizing old with
  | nil => rfl
  | cons p rest ih =>
    show lookupKey (geoUpdate (setKey old p.1 p.2) rest) k = lookupKey old k
    rw [ih (setKey old p.1 p.2) (fun q hq => h q (List.mem_cons_of_mem _ hq))]
    exact lookupKey_setKey_other _ _ _ _ (Ne.symm (h p (List.mem_cons_self _ _)))

/-! ## Claim theorems: calendar refresh -/

/-- C1: in the bulk-mode per-listing refresh, the calendar is recomputed
as the original entries minus the dates of every maximal booked range
longer than 62 days, in chronological order; every booked range with
length in (50, 62] is flagged with a warning but kept; the thresholds are
strict, so a range of exactly 62 days loses none of its entries and a
range of exactly 50 days is not flagged. -/
theorem claim_c1_normalization (cal : Calendar) (h : SortedCal cal) :
    normalizeCal cal = cal.filter (fun p => !inLongRange cal p.1)
    ∧ SortedCal (normalizeCal cal)
    ∧ warnsOf cal = (get_date_ranges .booked cal).filter
        (fun r => decide (50 < r.length) && decide (r.length ≤ 62))
    ∧ (∀ r ∈ get_date_ranges .booked cal, r.length > 62 →
        ∀ p ∈ cal, r.containsDate p.1 = true → p ∉ normalizeCal cal)
    ∧ (∀ r ∈ get_date_ranges .booked cal, r.length ≤ 62 →
        ∀ p ∈ cal, r.containsDate p.1 = true → p ∈ normalizeCal cal)
    ∧ (∀ r ∈ get_date_ranges .booked cal, r.length = 50 → r ∉ warnsOf cal) := by
  refine ⟨normalizeCal_eq_filter cal, sortedCal_normalizeCal cal h, warnsOf_eq cal, ?_, ?_, ?_⟩
  · intro r hr hlen p hp hd hmem
    rw [normalizeCal_eq_filter, List.mem_filter] at hmem
    have hkeep := hmem.2
    have hlong : inLongRange cal p.1 = true := by
      unfold inLongRange
      rw [List.any_eq_true]
      exact ⟨r, hr, by simp [hlen, hd]⟩
    rw [hlong] at hkeep
    simp at hkeep
  · intro r hr hlen p hp hd
    exact mem_normalizeCal_of_short cal h r hr hlen p hp hd
  · intro r hr hlen hw
    rw [warnsOf_eq] at hw
    have := (List.mem_filter.mp hw).2
    simp only [Bool.and_eq_true, decide_eq_true_eq] at this
    omega

theorem claim_c1_normalization_witness :
    SortedCal calLong ∧
      (normalizeCal calLong = calLong.filter (fun p => !inLongRange calLong p.1)
      ∧ SortedCal (normalizeCal calLong)
      ∧ warnsOf calLong = (get_date_ranges .booked calLong).filter
          (fun r => decide (50 < r.length) && decide (r.length ≤ 62))
      ∧ (∀ r ∈ get_date_ranges .booked calLong, r.length > 62 →
          ∀ p ∈ calLong, r.containsDate p.1 = true → p ∉ normalizeCal calLong)
      ∧ (∀ r ∈ get_date_ranges .booked calLong, r.length ≤ 62 →
          ∀ p ∈ calLong, r.containsDate p.1 = true → p ∈ normalizeCal calLong)
      ∧ (∀ r ∈ get_date_ranges .booked calLong, r.length = 50 → r ∉ warnsOf calLong)) :=
  ⟨by decide, claim_c1_normalization calLong (by decide)⟩

/-- C7 (amended): the normalizer is idempotent on its calendar output —
after one pass no booked range exceeds the 62-day removal threshold
(ranges in (50, 62] survive and may still exceed the 50-day warning
threshold), and two 40-day booked runs separated by one available day stay
separate ranges, neither removed. -/
theorem claim_c7_idempotent :
    (∀ cal : Calendar, SortedCal cal → normalizeCal (normalizeCal cal) = normalizeCal cal)
    ∧ get_date_ranges .booked cal4040 = [⟨.booked, 0, 40⟩, ⟨.booked, 41, 40⟩]
    ∧ normalizeCal cal4040 = cal4040 :=
  ⟨normalizeCal_idem, by decide, by decide⟩

theorem claim_c7_idempotent_witness :
    SortedCal cal4040 ∧ normalizeCal (normalizeCal cal4040) = normalizeCal cal4040 :=
  ⟨by decide, claim_c7_idempotent.1 cal4040 (by decide)⟩

/-- C7 counterexample: the claim's justification that "after one pass no
booked range exceeds either threshold" is false — on a calendar with one
55-day booked run the first pass removes nothing, and a booked range
longer than the 50-day warning threshold persists in the output (it gets
re-flagged by a second pass). -/
theorem claim_c7_counterexample :
    normalizeCal cal55 = cal55
    ∧ (get_date_ranges .booked (normalizeCal cal55)).any
        (fun r => decide (r.length > 50)) = true := by
  decide

/-- C2: when the calendar fetch is Forbidden, the existence probe resolves
it: probe 200 raises the fatal "existing listing" error (no events, so
`mark_deleted` is never called); probe 410 yields exactly one
`mark_deleted` call and no exception, and the bulk loop continues with the
remaining listings; any other probe status raises the unhandled-response
fatal error. -/
theorem claim_c2_forbidden (env : CalEnv) (listing_id : String)
    (hforb : env.get_calendar listing_id = .error ()) :
    (env.probe_status listing_id = 200 →
      update_calendar_and_pricing env listing_id =
        .error ("Could not get listing calendar for existing listing " ++ listing_id))
    ∧ (env.probe_status listing_id = 410 →
      update_calendar_and_pricing env listing_id = .ok [CalEvent.mark_deleted listing_id])
    ∧ (env.probe_status listing_id ≠ 200 → env.probe_status listing_id ≠ 410 →
      update_calendar_and_pricing env listing_id = .error "Unhandled response code")
    ∧ (∀ (rest : List String) (evs' : List CalEvent), env.probe_status listing_id = 410 →
      runBulk env rest = .ok evs' →
      runBulk env (listing_id :: rest) = .ok (CalEvent.mark_deleted listing_id :: evs')) := by
  have hgone : env.probe_status listing_id = 410 →
      update_calendar_and_pricing env listing_id = .ok [CalEvent.mark_deleted listing_id] := by
    intro h410
    unfold update_calendar_and_pricing
    rw [hforb]
    simp [exists_listing, h410]
  refine ⟨?_, hgone, ?_, ?_⟩
  · intro h200
    unfold update_calendar_and_pricing
    rw [hforb]
    simp [exists_listing, h200]
  · intro h200 h410
    unfold update_calendar_and_pricing
    rw [hforb]
    simp [exists_listing, h200, h410]
  · intro rest evs' h410 hrest
    rw [runBulk, hgone h410, hrest]
    rfl

theorem claim_c2_forbidden_witness :
    update_calendar_and_pricing envGone "listing1" = .ok [CalEvent.mark_deleted "listing1"] :=
  (claim_c2_forbidden envGone "listing1" rfl).2.1 rfl

/-- C5: if the rate-data fetch returns no pricing data, the refresh logs a
warning and returns without an `update_pricing` event and without raising,
and the `update_calendar` event for the cleaned calendar precedes it in
the trace (the calendar write has already been issued). -/
theorem claim_c5_no_pricing (env : CalEnv) (listing_id : String) (cal : Calendar) (mn mx : Nat)
    (hcal : env.get_calendar listing_id = .ok (cal, mn, mx))
    (hrate : env.get_rate_data listing_id
      (get_date_ranges .available (normalizeCal cal)) mn mx false = none) :
    update_calendar_and_pricing env listing_id =
      .ok ((warnsOf cal).map (CalEvent.warnLongBooking listing_id) ++
        [CalEvent.update_calendar listing_id (normalizeCal cal),
         CalEvent.warnNoPricing listing_id]) := by
  unfold update_calendar_and_pricing
  rw [hcal]
  dsimp only
  have hrate' : env.get_rate_data listing_id
      (get_date_ranges .available (updateCalendarLoop cal).1) mn mx false = none := hrate
  rw [hrate']
  simp [normalizeCal, warnsOf]

theorem claim_c5_no_pricing_witness :
    update_calendar_and_pricing envNoPricing "listing2" =
      .ok ((warnsOf calSmall).map (CalEvent.warnLongBooking "listing2") ++
        [CalEvent.update_calendar "listing2" (normalizeCal calSmall),
         CalEvent.warnNoPricing "listing2"]) :=
  claim_c5_no_pricing envNoPricing "listing2" calSmall 2 365 rfl rfl

/-- C3 (amended): in single mode the run fetches the calendar, extracts
its available ranges, and returns the raw calendar — without applying the
Calendar Normalizer — together with the full rate data (flag set), and
issues no persistence events. -/
theorem claim_c3_single_mode (env : CalEnv) (source : String) (cal : Calendar) (mn mx : Nat)
    (hs : source ≠ "elasticsearch")
    (hcal : env.get_calendar source = .ok (cal, mn, mx)) :
    calRun env source = .ok ([], some (cal,
      env.get_rate_data source (get_date_ranges .available cal) mn mx true)) := by
  unfold calRun
  rw [if_neg hs, hcal]

theorem claim_c3_single_mode_witness :
    calRun envSingle "12345" = .ok ([], some (cal63,
      envSingle.get_rate_data "12345" (get_date_ranges .available cal63) 1 365 true)) :=
  claim_c3_single_mode envSingle "12345" cal63 1 365 (by decide) rfl

/-- C3 counterexample: single mode does not apply the Calendar Normalizer.
On a listing whose calendar is one 63-day booked run, the run returns that
calendar unchanged, while the normalizer's output on it differs (the
fabricated run would be removed). -/
theorem claim_c3_counterexample :
    calRun envSingle "12345" = .ok ([], some (cal63, some "rates"))
    ∧ normalizeCal cal63 ≠ cal63 :=
  ⟨by rfl, by decide⟩

/-! ## Claim theorems: search crawler -/

/-- C4: in a crawl run from a fresh instance, each listing id is fetched
(reviews and detail) at most once; every occurrence of an id on a
processed page yields exactly one of a detail fetch or a duplicate
warning; and the reported new-listing count is the number of distinct ids
processed. -/
theorem claim_c4_dedup (geo : Geo) (q : String) (pages : List Page)
    (evs : List SEvent) (stF : SState) (n : Nat)
    (h : searchRun ⟨geo, []⟩ q pages = some (evs, stF, n)) :
    (∀ X : String, evs.count (SEvent.fetchListing X) ≤ 1
      ∧ evs.count (SEvent.fetchReviews X) ≤ 1)
    ∧ (∀ X : String, (processedIds pages).count X =
        evs.count (SEvent.fetchListing X) + evs.count (SEvent.dupWarning X))
    ∧ n = (processedIds pages).dedup.length := by
  obtain ⟨p, rest, rfl, hloop, _⟩ := searchRun_some h
  refine ⟨?_, ?_, ?_⟩
  · intro X
    constructor
    · rw [searchLoop_count_fetch _ _ _ _ _ _ _ _ hloop X]
      split_ifs <;> omega
    · rw [searchLoop_count_reviews _ _ _ _ _ _ _ _ hloop X]
      split_ifs <;> omega
  · intro X
    exact searchLoop_conservation _ _ _ _ _ _ _ _ hloop X
  · obtain ⟨A, hnd, hmem, hcount, _⟩ := searchLoop_save _ _ _ _ _ _ _ _ hloop
    have hperm : A.Perm (processedIds (p :: rest)).dedup := by
      rw [List.perm_ext_iff_of_nodup hnd (List.nodup_dedup _)]
      intro a
      rw [hmem a, List.mem_dedup]
      simp
    rw [hcount, hperm.length_eq]
    simp

theorem claim_c4_dedup_witness :
    (∀ X : String, evsW.count (SEvent.fetchListing X) ≤ 1
      ∧ evsW.count (SEvent.fetchReviews X) ≤ 1)
    ∧ (∀ X : String, (processedIds pagesW).count X =
        evsW.count (SEvent.fetchListing X) + evsW.count (SEvent.dupWarning X))
    ∧ 3 = (processedIds pagesW).dedup.length :=
  claim_c4_dedup [] "warsaw" pagesW evsW st1W 3 rfl

/-- C8: if the very first response reports no next page, the run fetches
nothing and issues exactly one save with the original query and an empty
collection (the trace is exactly that one event). -/
theorem claim_c8_empty_run (st : SState) (q : String) (p : Page) (rest : List Page)
    (h : p.hasNextPage = false) :
    searchRun st q (p :: rest) =
      some ([SEvent.save q []], ⟨geoUpdate st.geography p.geography, st.ids_seen⟩, 0) := by
  simp [searchRun, searchLoop, h]

theorem claim_c8_empty_run_witness :
    searchRun ⟨[], []⟩ "krakow" [pageEnd] =
      some ([SEvent.save "krakow" []], ⟨geoUpdate [] pageEnd.geography, []⟩, 0) :=
  claim_c8_empty_run ⟨[], []⟩ "krakow" pageEnd [] rfl

/-- C9: ids are only ever fetched, and only ever saved, from pages
strictly before the first response without a next page — the loop tests
`hasNextPage` before extracting listings, so the terminal response's ids
are never fetched and never saved. -/
theorem claim_c9_terminal_unprocessed (st : SState) (q : String) (pages : List Page)
    (evs : List SEvent) (stF : SState) (n : Nat)
    (h : searchRun st q pages = some (evs, stF, n)) :
    (∀ X : String, SEvent.fetchListing X ∈ evs → X ∈ processedIds pages)
    ∧ (∀ l, SEvent.save q l ∈ evs → ∀ x ∈ l, x ∈ processedIds pages) := by
  obtain ⟨p, rest, rfl, hloop, _⟩ := searchRun_some h
  constructor
  · intro X hmem
    have hcount : 0 < evs.count (SEvent.fetchListing X) := List.count_pos_iff.mpr hmem
    rw [searchLoop_count_fetch _ _ _ _ _ _ _ _ hloop X] at hcount
    split_ifs at hcount with h1 h2
    · exact absurd hcount (by omega)
    · exact h2
    · exact absurd hcount (by omega)
  · intro l hl x hx
    obtain ⟨A, _, hmemA, _, hsave⟩ := searchLoop_save _ _ _ _ _ _ _ _ hloop
    obtain ⟨_, rfl⟩ := (hsave q l).mp hl
    exact ((hmemA x).mp (by simpa using hx)).1

theorem claim_c9_terminal_unprocessed_witness :
    (∀ X : String, SEvent.fetchListing X ∈ evsW → X ∈ processedIds pagesW)
    ∧ (∀ l, SEvent.save "warsaw" l ∈ evsW → ∀ x ∈ l, x ∈ processedIds pagesW) :=
  claim_c9_terminal_unprocessed ⟨[], []⟩ "warsaw" pagesW evsW st1W 3 rfl

/-- C10: the seen-id set and geography cache persist across runs of one
instance: an id fetched in the first run is never fetched in a second run,
is absent from its saved collection, and, when re-encountered, yields a
duplicate warning; the second run's count covers only distinct ids not yet
seen; the geography after each run is the previous cache updated (merged,
not replaced — keys absent from the new metadata survive) with the first
response's geography, exactly once per run. -/
theorem claim_c10_instance_state (st0 : SState) (q1 q2 : String)
    (p1 : Page) (rest1 : List Page) (p2 : Page) (rest2 : List Page)
    (ev1 ev2 : List SEvent) (st1 st2 : SState) (n1 n2 : Nat)
    (h1 : searchRun st0 q1 (p1 :: rest1) = some (ev1, st1, n1))
    (h2 : searchRun st1 q2 (p2 :: rest2) = some (ev2, st2, n2)) :
    (∀ X : String, SEvent.fetchListing X ∈ ev1 →
      SEvent.fetchListing X ∉ ev2
      ∧ (∀ l, SEvent.save q2 l ∈ ev2 → X ∉ l)
      ∧ (X ∈ processedIds (p2 :: rest2) → SEvent.dupWarning X ∈ ev2))
    ∧ (∃ A : List String, A.Nodup
        ∧ (∀ x, x ∈ A ↔ x ∈ processedIds (p2 :: rest2) ∧ x ∉ st1.ids_seen)
        ∧ n2 = A.length)
    ∧ st1.geography = geoUpdate st0.geography p1.geography
    ∧ st2.geography = geoUpdate st1.geography p2.geography
    ∧ (∀ k : String, (∀ p ∈ p2.geography, p.1 ≠ k) →
        lookupKey st2.geography k = lookupKey st1.geography k) := by
  obtain ⟨p1', rest1', heq1, hloop1, hgeo1⟩ := searchRun_some h1
  obtain ⟨p2', rest2', heq2, hloop2, hgeo2⟩ := searchRun_some h2
  injection heq1 with hp1 hr1
  injection heq2 with hp2 hr2
  subst hp1
  subst hr1
  subst hp2
  subst hr2
  refine ⟨?_, ?_, hgeo1, hgeo2, ?_⟩
  · intro X hfetch
    have hseen1 : X ∈ st1.ids_seen := by
      have hc := List.count_pos_iff.mpr hfetch
      rw [searchLoop_count_fetch _ _ _ _ _ _ _ _ hloop1 X] at hc
      have hproc1 : X ∈ processedIds (p1 :: rest1) := by
        split_ifs at hc with ha hb
        · exact absurd hc (by omega)
        · exact hb
        · exact absurd hc (by omega)
      rw [searchLoop_seenF _ _ _ _ _ _ _ _ hloop1 X]
      exact Or.inr hproc1
    refine ⟨?_, ?_, ?_⟩
    · intro hmem2
      have hc2 := List.count_pos_iff.mpr hmem2
      rw [searchLoop_count_fetch _ _ _ _ _ _ _ _ hloop2 X, if_pos hseen1] at hc2
      exact absurd hc2 (by omega)
    · intro l hl hxin
      obtain ⟨A, _, hmemA, _, hsaveA⟩ := searchLoop_save _ _ _ _ _ _ _ _ hloop2
      obtain ⟨_, rfl⟩ := (hsaveA q2 l).mp hl
      exact ((hmemA X).mp (by simpa using hxin)).2 hseen1
    · intro hproc
      have hcons := searchLoop_conservation _ _ _ _ _ _ _ _ hloop2 X
      have hfz : ev2.count (SEvent.fetchListing X) = 0 := by
        rw [searchLoop_count_fetch _ _ _ _ _ _ _ _ hloop2 X, if_pos hseen1]
      have hcp : 0 < (processedIds (p2 :: rest2)).count X := List.count_pos_iff.mpr hproc
      have hdup : 0 < ev2.count (SEvent.dupWarning X) := by omega
      exact List.count_pos_iff.mp hdup
  · obtain ⟨A, hnd, hmemA, hcnt, _⟩ := searchLoop_save _ _ _ _ _ _ _ _ hloop2
    exact ⟨A, hnd, hmemA, by omega⟩
  · intro k hk
    rw [hgeo2]
    exact lookupKey_geoUpdate_of_not_key _ _ _ hk

theorem claim_c10_instance_state_witness :
    (∀ X : String, SEvent.fetchListing X ∈ evsW →
      SEvent.fetchListing X ∉ evs2W
      ∧ (∀ l, SEvent.save "krakow" l ∈ evs2W → X ∉ l)
      ∧ (X ∈ processedIds [pageC, pageEnd] → SEvent.dupWarning X ∈ evs2W))
    ∧ (∃ A : List String, A.Nodup
        ∧ (∀ x, x ∈ A ↔ x ∈ processedIds [pageC, pageEnd] ∧ x ∉ st1W.ids_seen)
        ∧ 1 = A.length)
    ∧ st1W.geography = geoUpdate (⟨[], []⟩ : SState).geography pageA.geography
    ∧ st2W.geography = geoUpdate st1W.geography pageC.geography
    ∧ (∀ k : String, (∀ p ∈ pageC.geography, p.1 ≠ k) →
        lookupKey st2W.geography k = lookupKey st1W.geography k) :=
  claim_c10_instance_state ⟨[], []⟩ "warsaw" "krakow" pageA [pageB, pageEnd] pageC [pageEnd]
    evsW evs2W st1W st2W 3 1 rfl rfl

theorem lookupKey_addTailParams_frame (params : List (String × String))
    (rv : ReqVariables) (qs : QsParams) (k : String)
    (h1 : k ≠ "priceMax") (h2 : k ≠ "priceMin") (h3 : k ≠ "ne_lat") (h4 : k ≠ "ne_lng")
    (h5 : k ≠ "sw_lat") (h6 : k ≠ "sw_lng") :
    lookupKey (addTailParams params rv qs) k = lookupKey params k := by
  unfold addTailParams
  rw [lookupKey_copyIfPresent_other _ _ _ _ h6, lookupKey_copyIfPresent_other _ _ _ _ h5,
    lookupKey_copyIfPresent_other _ _ _ _ h4, lookupKey_copyIfPresent_other _ _ _ _ h3,
    lookupKey_copyIfPresent_other _ _ _ _ h2, lookupKey_copyIfPresent_other _ _ _ _ h1]

theorem lookupKey_addTailParams_priceMax (params : List (String × String))
    (rv : ReqVariables) (qs : QsParams) :
    lookupKey (addTailParams params rv qs) "priceMax" =
      match rv.priceMax with
      | some v => some v
      | none => lookupKey params "priceMax" := by
  unfold addTailParams
  rw [lookupKey_copyIfPresent_other _ _ _ _ (by decide),
    lookupKey_copyIfPresent_other _ _ _ _ (by decide),
    lookupKey_copyIfPresent_other _ _ _ _ (by decide),
    lookupKey_copyIfPresent_other _ _ _ _ (by decide),
    lookupKey_copyIfPresent_other _ _ _ _ (by decide),
    lookupKey_copyIfPresent_self]

theorem lookupKey_addTailParams_priceMin (params : List (String × String))
    (rv : ReqVariables) (qs : QsParams) :
    lookupKey (addTailParams params rv qs) "priceMin" =
      match rv.priceMin with
      | some v => some v
      | none => lookupKey params "priceMin" := by
  unfold addTailParams
  rw [lookupKey_copyIfPresent_other _ _ _ _ (by decide),
    lookupKey_copyIfPresent_other _ _ _ _ (by decide),
    lookupKey_copyIfPresent_other _ _ _ _ (by decide),
    lookupKey_copyIfPresent_other _ _ _ _ (by decide),
    lookupKey_copyIfPresent_self,
    lookupKey_copyIfPresent_other _ _ _ _ (by decide)]

theorem lookupKey_addTailParams_ne_lat (params : List (String × String))
    (rv : ReqVariables) (qs : QsParams) :
    lookupKey (addTailParams params rv qs) "ne_lat" =
      match qs.ne_lat with
      | some v => some v
      | none => lookupKey params "ne_lat" := by
  unfold addTailParams
  rw [lookupKey_copyIfPresent_other _ _ _ _ (by decide),
    lookupKey_copyIfPresent_other _ _ _ _ (by decide),
    lookupKey_copyIfPresent_other _ _ _ _ (by decide),
    lookupKey_copyIfPresent_self,
    lookupKey_copyIfPresent_other _ _ _ _ (by decide),
    lookupKey_copyIfPresent_other _ _ _ _ (by decide)]

theorem lookupKey_addTailParams_ne_lng (params : List (String × String))
    (rv : ReqVariables) (qs : QsParams) :
    lookupKey (addTailParams params rv qs) "ne_lng" =
      match qs.ne_lng with
      | some v => some v
      | none => lookupKey params "ne_lng" := by
  unfold addTailParams
  rw [lookupKey_copyIfPresent_other _ _ _ _ (by decide),
    lookupKey_copyIfPresent_other _ _ _ _ (by decide),
    lookupKey_copyIfPresent_self,
    lookupKey_copyIfPresent_other _ _ _ _ (by decide),
    lookupKey_copyIfPresent_other _ _ _ _ (by decide),
    lookupKey_copyIfPresent_other _ _ _ _ (by decide)]

theorem lookupKey_addTailParams_sw_lat (params : List (String × String))
    (rv : ReqVariables) (qs : QsParams) :
    lookupKey (addTailParams params rv qs) "sw_lat" =
      match qs.sw_lat with
      | some v => some v
      | none => lookupKey params "sw_lat" := by
  unfold addTailParams
  rw [lookupKey_copyIfPresent_other _ _ _ _ (by decide),
    lookupKey_copyIfPresent_self,
    lookupKey_copyIfPresent_other _ _ _ _ (by decide),
    lookupKey_copyIfPresent_other _ _ _ _ (by decide),
    lookupKey_copyIfPresent_other _ _ _ _ (by decide),
    lookupKey_copyIfPresent_other _ _ _ _ (by decide)]

theorem lookupKey_addTailParams_sw_lng (params : List (String × String))
    (rv : ReqVariables) (qs : QsParams) :
    lookupKey (addTailParams params rv qs) "sw_lng" =
      match qs.sw_lng with
      | some v => some v
      | none => lookupKey params "sw_lng" := by
  unfold addTailParams
  rw [lookupKey_copyIfPresent_self,
    lookupKey_copyIfPresent_other _ _ _ _ (by decide),
    lookupKey_copyIfPresent_other _ _ _ _ (by decide),
    lookupKey_copyIfPresent_other _ _ _ _ (by decide),
    lookupKey_copyIfPresent_other _ _ _ _ (by decide),
    lookupKey_copyIfPresent_other _ _ _ _ (by decide)]

/-- C6: the carry-forward step writes only the keys checkin, checkout,
priceMax, priceMin, ne_lat, ne_lng, sw_lat, sw_lng, each only when the
corresponding field is present in the parsed previous-request query
(checkout is read under checkin's guard, but a completed call copies it
only when it is present), and every other key of `params` keeps its
previous value. -/
theorem claim_c6_carry_forward (params params' : List (String × String))
    (reqVars : ReqVariables) (parsed_qs : QsParams)
    (h : add_search_params params reqVars parsed_qs = some params') :
    (∀ k, k ∉ (["checkin", "checkout", "priceMax", "priceMin",
        "ne_lat", "ne_lng", "sw_lat", "sw_lng"] : List String) →
      lookupKey params' k = lookupKey params k)
    ∧ lookupKey params' "checkin" =
        (match reqVars.checkin with
         | some v => some v
         | none => lookupKey params "checkin")
    ∧ lookupKey params' "checkout" =
        (match reqVars.checkin, reqVars.checkout with
         | some _, some w => some w
         | _, _ => lookupKey params "checkout")
    ∧ (lookupKey params' "checkout" ≠ lookupKey params "checkout" → reqVars.checkout ≠ none)
    ∧ lookupKey params' "priceMax" =
        (match reqVars.priceMax with
         | some v => some v
         | none => lookupKey params "priceMax")
    ∧ lookupKey params' "priceMin" =
        (match reqVars.priceMin with
         | some v => some v
         | none => lookupKey params "priceMin")
    ∧ lookupKey params' "ne_lat" =
        (match parsed_qs.ne_lat with
         | some v => some v
         | none => lookupKey params "ne_lat")
    ∧ lookupKey params' "ne_lng" =
        (match parsed_qs.ne_lng with
         | some v => some v
         | none => lookupKey params "ne_lng")
    ∧ lookupKey params' "sw_lat" =
        (match parsed_qs.sw_lat with
         | some v => some v
         | none => lookupKey params "sw_lat")
    ∧ lookupKey params' "sw_lng" =
        (match parsed_qs.sw_lng with
         | some v => some v
         | none => lookupKey params "sw_lng") := by
  cases hci : reqVars.checkin with
  | none =>
    simp only [add_search_params, hci, Option.some.injEq] at h
    subst h
    refine ⟨?_, ?_, ?_, ?_, ?_, ?_, ?_, ?_, ?_, ?_⟩
    · intro k hk
      simp only [List.mem_cons, List.not_mem_nil, or_false, not_or] at hk
      obtain ⟨hk1, hk2, hk3, hk4, hk5, hk6, hk7, hk8⟩ := hk
      exact lookupKey_addTailParams_frame _ _ _ _ hk3 hk4 hk5 hk6 hk7 hk8
    · rw [lookupKey_addTailParams_frame _ _ _ _ (by decide) (by decide) (by decide)
        (by decide) (by decide) (by decide)]
    · rw [lookupKey_addTailParams_frame _ _ _ _ (by decide) (by decide) (by decide)
        (by decide) (by decide) (by decide)]
    · intro habs
      exact absurd (lookupKey_addTailParams_frame params reqVars parsed_qs "checkout"
        (by decide) (by decide) (by decide) (by decide) (by decide) (by decide)) habs
    · exact lookupKey_addTailParams_priceMax _ _ _
    · exact lookupKey_addTailParams_priceMin _ _ _
    · exact lookupKey_addTailParams_ne_lat _ _ _
    · exact lookupKey_addTailParams_ne_lng _ _ _
    · exact lookupKey_addTailParams_sw_lat _ _ _
    · exact lookupKey_addTailParams_sw_lng _ _ _
  | some ci =>
    cases hco : reqVars.checkout with
    | none => simp [add_search_params, hci, hco] at h
    | some co =>
      simp only [add_search_params, hci, hco, Option.some.injEq] at h
      subst h
      refine ⟨?_, ?_, ?_, ?_, ?_, ?_, ?_, ?_, ?_, ?_⟩
      · intro k hk
        simp only [List.mem_cons, List.not_mem_nil, or_false, not_or] at hk
        obtain ⟨hk1, hk2, hk3, hk4, hk5, hk6, hk7, hk8⟩ := hk
        rw [lookupKey_addTailParams_frame _ _ _ _ hk3 hk4 hk5 hk6 hk7 hk8,
          lookupKey_setKey_other _ _ _ _ hk2, lookupKey_setKey_other _ _ _ _ hk1]
      · rw [lookupKey_addTailParams_frame _ _ _ _ (by decide) (by decide) (by decide)
          (by decide) (by decide) (by decide),
          lookupKey_setKey_other _ _ _ _ (by decide), lookupKey_setKey_self]
      · rw [lookupKey_addTailParams_frame _ _ _ _ (by decide) (by decide) (by decide)
          (by decide) (by decide) (by decide),
          lookupKey_setKey_self]
      · intro _
        simp
      · rw [lookupKey_addTailParams_priceMax]
        cases hpm : reqVars.priceMax with
        | none =>
          dsimp only
          rw [lookupKey_setKey_other _ _ _ _ (by decide),
            lookupKey_setKey_other _ _ _ _ (by decide)]
        | some v => rfl
      · rw [lookupKey_addTailParams_priceMin]
        cases hpm : reqVars.priceMin with
        | none =>
          dsimp only
          rw [lookupKey_setKey_other _ _ _ _ (by decide),
            lookupKey_setKey_other _ _ _ _ (by decide)]
        | some v => rfl
      · rw [lookupKey_addTailParams_ne_lat]
        cases hpm : parsed_qs.ne_lat with
        | none =>
          dsimp only
          rw [lookupKey_setKey_other _ _ _ _ (by decide),
            lookupKey_setKey_other _ _ _ _ (by decide)]
        | some v => rfl
      · rw [lookupKey_addTailParams_ne_lng]
        cases hpm : parsed_qs.ne_lng with
        | none =>
          dsimp only
          rw [lookupKey_setKey_other _ _ _ _ (by decide),
            lookupKey_setKey_other _ _ _ _ (by decide)]
        | some v => rfl
      · rw [lookupKey_addTailParams_sw_lat]
        cases hpm : parsed_qs.sw_lat with
        | none =>
          dsimp only
          rw [lookupKey_setKey_other _ _ _ _ (by decide),
            lookupKey_setKey_other _ _ _ _ (by decide)]
        | some v => rfl
      · rw [lookupKey_addTailParams_sw_lng]
        cases hpm : parsed_qs.sw_lng with
        | none =>
          dsimp only
          rw [lookupKey_setKey_other _ _ _ _ (by decide),
            lookupKey_setKey_other _ _ _ _ (by decide)]
        | some v => rfl

theorem claim_c6_carry_forward_witness :
    (∀ k, k ∉ (["checkin", "checkout", "priceMax", "priceMin",
        "ne_lat", "ne_lng", "sw_lat", "sw_lng"] : List String) →
      lookupKey (addTailParams (setKey (setKey paramsW "checkin" "2023-01-01")
        "checkout" "2023-01-07") reqVarsW qsW) k = lookupKey paramsW k)
    ∧ lookupKey (addTailParams (setKey (setKey paramsW "checkin" "2023-01-01")
        "checkout" "2023-01-07") reqVarsW qsW) "checkin" =
        (match reqVarsW.checkin with
         | some v => some v
         | none => lookupKey paramsW "checkin")
    ∧ lookupKey (addTailParams (setKey (setKey paramsW "checkin" "2023-01-01")
        "checkout" "2023-01-07") reqVarsW qsW) "checkout" =
        (match reqVarsW.checkin, reqVarsW.checkout with
         | some _, some w => some w
         | _, _ => lookupKey paramsW "checkout")
    ∧ (lookupKey (addTailParams (setKey (setKey paramsW "checkin" "2023-01-01")
        "checkout" "2023-01-07") reqVarsW qsW) "checkout" ≠ lookupKey paramsW "checkout" →
        reqVarsW.checkout ≠ none)
    ∧ lookupKey (addTailParams (setKey (setKey paramsW "checkin" "2023-01-01")
        "checkout" "2023-01-07") reqVarsW qsW) "priceMax" =
        (match reqVarsW.priceMax with
         | some v => some v
         | none => lookupKey paramsW "priceMax")
    ∧ lookupKey (addTailParams (setKey (setKey paramsW "checkin" "2023-01-01")
        "checkout" "2023-01-07") reqVarsW qsW) "priceMin" =
        (match reqVarsW.priceMin with
         | some v => some v
         | none => lookupKey paramsW "priceMin")
    ∧ lookupKey (addTailParams (setKey (setKey paramsW "checkin" "2023-01-01")
        "checkout" "2023-01-07") reqVarsW qsW) "ne_lat" =
        (match qsW.ne_lat with
         | some v => some v
         | none => lookupKey paramsW "ne_lat")
    ∧ lookupKey (addTailParams (setKey (setKey paramsW "checkin" "2023-01-01")
        "checkout" "2023-01-07") reqVarsW qsW) "ne_lng" =
        (match qsW.ne_lng with
         | some v => some v
         | none => lookupKey paramsW "ne_lng")
    ∧ lookupKey (addTailParams (setKey (setKey paramsW "checkin" "2023-01-01")
        "checkout" "2023-01-07") reqVarsW qsW) "sw_lat" =
        (match qsW.sw_lat with
         | some v => some v
         | none => lookupKey paramsW "sw_lat")
    ∧ lookupKey (addTailParams (setKey (setKey paramsW "checkin" "2023-01-01")
        "checkout" "2023-01-07") reqVarsW qsW) "sw_lng" =
        (match qsW.sw_lng with
         | some v => some v
         | none => lookupKey paramsW "sw_lng") :=
  claim_c6_carry_forward paramsW
    (addTailParams (setKey (setKey paramsW "checkin" "2023-01-01")
      "checkout" "2023-01-07") reqVarsW qsW) reqVarsW qsW rfl

example : runs [1, 2, 3, 5, 6] = [(1, 3), (5, 2)] := by decide

example :
    get_date_ranges .booked [(0, .booked), (1, .booked), (2, .available), (3, .booked)] =
      [⟨.booked, 0, 2⟩, ⟨.booked, 3, 1⟩] := by decide

end Stl
